import Mathlib

/-!
Verification of the session registry and message relay of the
`webrtc-signal` server (src/server.js), as a shallow embedding.

Modelling conventions:
- JavaScript values that can appear in parsed JSON messages are the
  inductive `JVal`; JS truthiness is `truthy`.
- A live WebSocket connection is identified by a natural number; its
  `readyState` is read from the environment (field of `ServerState`) and
  never written by the server code itself.
- JS `Map` objects are insertion-ordered association lists.  `Map.set`
  is `assocSet` (replace in place, or append), `Map.delete` is
  `assocDelete`, `Map.get` is `assocLookup`.
- Room objects live on a heap (`heap : Nat -> Room`) addressed by
  pointers, because the connection handler's closures capture the room
  *object* (`let room = ...`) while `relayToPeer`/`broadcast` re-read the
  registry (`rooms.get(roomId)`); the two can disagree after the sweeper
  runs.  The registry `rooms` maps a room id to a pointer.
- Sends and closes performed by the server are recorded as a list of
  `Event`s instead of performing I/O.
-/

namespace WebrtcSignal

/-- A JSON-decoded JavaScript value (the result of `JSON.parse`). -/
inductive JVal where
  | jnull : JVal
  | jbool : Bool → JVal
  | jnum : Int → JVal
  | jstr : String → JVal
  | jarr : List JVal → JVal
  | jobj : List (String × JVal) → JVal

/-- JavaScript truthiness of a JSON value (`if (!x)` tests `truthy x = false`). -/
def truthy : JVal → Bool
  | .jnull => false
  | .jbool b => b
  | .jnum n => n != 0
  | .jstr s => s != ""
  | .jarr _ => true
  | .jobj _ => true

/-- Property access `v.k` after `const { k } = v`: `some` if `v` is an object
with field `k`, otherwise `none` (JS `undefined`). -/
def getField : JVal → String → Option JVal
  | .jobj fs, k => (fs.find? (fun f => f.1 = k)).map (fun f => f.2)
  | _, _ => none

/-- `Map.get`: first binding of the key, if any. -/
def assocLookup {α β : Type} [DecidableEq α] : List (α × β) → α → Option β
  | [], _ => none
  | (k, v) :: rest, a => if k = a then some v else assocLookup rest a

/-- `Map.set`: replace the value at an existing key in place, else append. -/
def assocSet {α β : Type} [DecidableEq α] : List (α × β) → α → β → List (α × β)
  | [], a, b => [(a, b)]
  | (k, v) :: rest, a, b =>
      if k = a then (k, b) :: rest else (k, v) :: assocSet rest a b

/-- `Map.delete`: drop the bindings of the key (at most one ever exists). -/
def assocDelete {α β : Type} [DecidableEq α] : List (α × β) → α → List (α × β)
  | [], _ => []
  | (k, v) :: rest, a =>
      if k = a then assocDelete rest a else (k, v) :: assocDelete rest a

/-- `.toUpperCase()`: upper-case every character (identical to
`String.toUpper`, but defined by structural recursion on the character
list so that it evaluates inside the kernel). -/
def jsToUpper (s : String) : String := String.mk (s.data.map Char.toUpper)

/-- A room object: `{ createdAt, members: Map(memberId->ws), roles: Map(ws->role) }`
(src/server.js line 33).  `members` maps member id to connection id,
`roles` maps connection id to role. -/
structure Room where
  createdAt : Nat
  members : List (String × Nat)
  roles : List (Nat × String)
  deriving DecidableEq, Repr

/-- Update the heap at one pointer (mutation of a room object). -/
def heapSet (h : Nat → Room) (p : Nat) (r : Room) : Nat → Room :=
  fun q => if q = p then r else h q

/-- The server's shared mutable state: the `rooms` registry (room id to
room-object pointer), the heap of room objects, a fresh-pointer counter,
and the environment-provided `readyState` of each connection id. -/
structure ServerState where
  rooms : List (String × Nat)
  heap : Nat → Room
  nextPtr : Nat
  readyState : Nat → Nat

/-- `const ROOM_TTL_MS = 10 * 60 * 1000` (src/server.js line 34). -/
def ROOM_TTL_MS : Nat := 10 * 60 * 1000

/-- A message the server sends to a client (the argument of
`ws.send(JSON.stringify(...))`). -/
inductive OutMsg where
  | hello (roomId memberId role : String) (createdAt : Nat) (members : List String)
  | memberJoined (roomId memberId role : String)
  | memberLeft (roomId memberId : String)
  | relay (ty : JVal) (roomId fromId : String) (payload : Option JVal)
  | pong (t : Nat)
  | error (code : String)

/-- An observable action of the server on a connection. -/
inductive Event where
  | send (conn : Nat) (msg : OutMsg)
  | close (conn : Nat) (code : Nat) (reason : String)

/-- `relayToPeer(roomId, fromMemberId, msg)` (src/server.js lines 147-155):
look the room up in the registry; send `msg` to every member other than
the sender whose connection is open (`readyState === 1`). -/
def relayToPeer (st : ServerState) (roomId fromMemberId : String) (msg : OutMsg) :
    List Event :=
  match assocLookup st.rooms roomId with
  | none => []
  | some p =>
      ((st.heap p).members.filter
          (fun m => m.1 != fromMemberId && st.readyState m.2 == 1)).map
        (fun m => Event.send m.2 msg)

/-- `broadcast(roomId, msg)` (src/server.js lines 156-164): look the room up
in the registry; send `msg` to every member whose connection is open. -/
def broadcast (st : ServerState) (roomId : String) (msg : OutMsg) : List Event :=
  match assocLookup st.rooms roomId with
  | none => []
  | some p =>
      ((st.heap p).members.filter (fun m => st.readyState m.2 == 1)).map
        (fun m => Event.send m.2 msg)

/-- The JSON body of the `POST /rooms` response. -/
structure RoomsResponse where
  ok : Bool
  roomId : String
  expiresInSec : Nat
  deriving DecidableEq, Repr

/-- `app.post("/rooms", ...)` (src/server.js lines 42-49): normalize the
requested id (`(req.body?.roomId || nanoid(6)).toUpperCase()`, with
`generated` standing for the `nanoid(6)` value), create the room only if
absent, and answer `ok` with the full TTL in seconds. -/
def postRooms (st : ServerState) (now : Nat) (bodyRoomId : Option String)
    (generated : String) : ServerState × RoomsResponse :=
  let roomId := (match bodyRoomId with
    | some s => if s = "" then generated else s
    | none => generated) |> jsToUpper
  let st' := match assocLookup st.rooms roomId with
    | some _ => st
    | none =>
        { st with
          rooms := assocSet st.rooms roomId st.nextPtr,
          heap := heapSet st.heap st.nextPtr
            { createdAt := now, members := [], roles := [] },
          nextPtr := st.nextPtr + 1 }
  (st', { ok := true, roomId := roomId, expiresInSec := ROOM_TTL_MS / 1000 })

/-- `url.searchParams.get("role") || "guest"`: a missing or empty role
parameter defaults to `guest`. -/
def jsRole : Option String → String
  | some s => if s = "" then "guest" else s
  | none => "guest"

/-- The data the connection handler's closures capture for later use by the
`close` handler: the room *object* (pointer), the room id string and the
member id (src/server.js lines 86, 96, 134-143). -/
structure CloseCtx where
  roomPtr : Nat
  roomId : String
  memberId : String
  deriving DecidableEq, Repr

/-- `wss.on("connection", ...)` (src/server.js lines 80-110): resolve the
room id from the URL (`|| ""`, upper-cased) and the role (`|| "guest"`);
reject a missing room id (close 1008 `roomId required`); get or create the
room; reject when the room already has two members (close 1008 `room full`);
otherwise admit: insert the member and its role, send `hello` to the new
connection, and broadcast `member.joined`.  Returns the new state, the
emitted events, and — on successful admission — the context captured by the
registered `close` handler. -/
def connection (st : ServerState) (now : Nat) (urlRoomId urlRole : Option String)
    (ws : Nat) (memberId : String) :
    ServerState × List Event × Option CloseCtx :=
  let roomId := jsToUpper (urlRoomId.getD "")
  let role := jsRole urlRole
  if roomId = "" then (st, [Event.close ws 1008 "roomId required"], none)
  else
    let stp : ServerState × Nat := match assocLookup st.rooms roomId with
      | some p => (st, p)
      | none =>
          ({ st with
             rooms := assocSet st.rooms roomId st.nextPtr,
             heap := heapSet st.heap st.nextPtr
               { createdAt := now, members := [], roles := [] },
             nextPtr := st.nextPtr + 1 }, st.nextPtr)
    let st1 := stp.1
    let p := stp.2
    let room := st1.heap p
    if 2 ≤ room.members.length then
      (st1, [Event.close ws 1008 "room full"], none)
    else
      let room2 := { room with
        members := assocSet room.members memberId ws,
        roles := assocSet room.roles ws role }
      let st2 := { st1 with heap := heapSet st1.heap p room2 }
      let helloEv := Event.send ws (OutMsg.hello roomId memberId role
        room2.createdAt (room2.members.map Prod.fst))
      let joinEvs := broadcast st2 roomId (OutMsg.memberJoined roomId memberId role)
      (st2, helloEv :: joinEvs,
        some { roomPtr := p, roomId := roomId, memberId := memberId })

/-- `["offer", "answer", "ice"].includes(type)`: strict-equality membership,
true only for exactly those three strings. -/
def isSignalType : JVal → Bool
  | .jstr s => s == "offer" || s == "answer" || s == "ice"
  | _ => false

/-- `type === "ping"`: strict equality with the string `ping`. -/
def isPing : JVal → Bool
  | .jstr s => s == "ping"
  | _ => false

/-- `ws.on("message", ...)` (src/server.js lines 112-128).  `inp` is the
result of `JSON.parse` (`none` on a parse failure, which is answered with
`bad_json`).  After `const { type, payload } = msg || {}`: a missing or
falsy `type` is silently discarded; `offer`/`answer`/`ice` are relayed to
the peer enveloped as `{ type, roomId, from, payload }`; `ping` is answered
with `pong`; anything else with `unsupported_type`. -/
def handleMessage (st : ServerState) (now : Nat) (roomId memberId : String)
    (ws : Nat) (inp : Option JVal) : List Event :=
  match inp with
  | none => [Event.send ws (OutMsg.error "bad_json")]
  | some msg =>
      let m := if truthy msg then msg else JVal.jobj []
      match getField m "type" with
      | none => []
      | some ty =>
          if truthy ty = false then []
          else if isSignalType ty then
            relayToPeer st roomId memberId
              (OutMsg.relay ty roomId memberId (getField m "payload"))
          else if isPing ty then [Event.send ws (OutMsg.pong now)]
          else [Event.send ws (OutMsg.error "unsupported_type")]

/-- `ws.on("close", ...)` (src/server.js lines 134-143): delete the member
and its role from the *captured* room object, broadcast `member.left`
(which re-reads the registry), and — if the captured room object is now
empty — delete the room id from the registry. -/
def handleClose (st : ServerState) (ctx : CloseCtx) (ws : Nat) :
    ServerState × List Event :=
  let room := st.heap ctx.roomPtr
  let room' := { room with
    members := assocDelete room.members ctx.memberId,
    roles := assocDelete room.roles ws }
  let st1 := { st with heap := heapSet st.heap ctx.roomPtr room' }
  let evs := broadcast st1 ctx.roomId (OutMsg.memberLeft ctx.roomId ctx.memberId)
  if room'.members.length = 0 then
    ({ st1 with rooms := assocDelete st1.rooms ctx.roomId }, evs)
  else (st1, evs)

/-- One pass of the room GC loop body over the registry entries
(src/server.js lines 167-178): a room whose age exceeds the TTL has every
member's connection closed (1000, `expired`) and its registry entry
removed; the room object itself is not mutated. -/
def sweepList (heap : Nat → Room) (now : Nat) :
    List (String × Nat) → List (String × Nat) × List Event
  | [] => ([], [])
  | (rid, p) :: rest =>
      let sw := sweepList heap now rest
      if ROOM_TTL_MS < now - (heap p).createdAt then
        (sw.1,
          ((heap p).members.map (fun m => Event.close m.2 1000 "expired")) ++ sw.2)
      else ((rid, p) :: sw.1, sw.2)

/-- The expiry sweeper tick (`setInterval`, src/server.js lines 167-178). -/
def sweep (st : ServerState) (now : Nat) : ServerState × List Event :=
  let swept := sweepList st.heap now st.rooms
  ({ st with rooms := swept.1 }, swept.2)

/-- The whole system as seen by the event loop: the server state plus, for
each live admitted connection, the context its `close` handler captured. -/
structure SysState where
  srv : ServerState
  handlers : List (Nat × CloseCtx)

/-- An admission or disconnection event arriving at the server. -/
inductive Op where
  | connect (now : Nat) (urlRoomId urlRole : Option String) (ws : Nat)
      (memberId : String)
  | disconnect (ws : Nat)

/-- Execute one operation: `connect` runs the connection handler and
registers the `close` handler on success; `disconnect` fires the `close`
handler registered for that connection (once), if any. -/
def stepOp (s : SysState) : Op → SysState
  | Op.connect now urid urole ws mid =>
      let out := connection s.srv now urid urole ws mid
      match out.2.2 with
      | some ctx => { srv := out.1, handlers := assocSet s.handlers ws ctx }
      | none => { srv := out.1, handlers := s.handlers }
  | Op.disconnect ws =>
      match assocLookup s.handlers ws with
      | none => s
      | some ctx =>
          { srv := (handleClose s.srv ctx ws).1,
            handlers := assocDelete s.handlers ws }

/-- Run a sequence of operations. -/
def runOps (s : SysState) : List Op → SysState
  | [] => s
  | op :: rest => runOps (stepOp s op) rest

/-- The initial system state: empty registry, no live connections. -/
def initState : SysState :=
  { srv := { rooms := [],
             heap := fun _ => { createdAt := 0, members := [], roles := [] },
             nextPtr := 0,
             readyState := fun _ => 1 },
    handlers := [] }

/-- A concrete room with two members, used to instantiate theorems. -/
def exRoom : Room :=
  { createdAt := 100,
    members := [("A", 1), ("B", 2)],
    roles := [(1, "caller"), (2, "callee")] }

/-- A concrete server state: one room `ROOM` at pointer 0 holding `exRoom`,
every connection open. -/
def exSt : ServerState :=
  { rooms := [("ROOM", 0)],
    heap := heapSet (fun _ => { createdAt := 0, members := [], roles := [] }) 0 exRoom,
    nextPtr := 1,
    readyState := fun _ => 1 }

/-- The inductive invariant for admission/disconnection traces: registry keys
and registry pointers are duplicate-free, every registered room sits below the
fresh-pointer counter and is nonempty, and every live close handler's captured
pointer is below the counter and is registered (if at all) only under the
captured room id. -/
def Inv (s : SysState) : Prop :=
  (s.srv.rooms.map Prod.fst).Nodup ∧
  (s.srv.rooms.map Prod.snd).Nodup ∧
  (∀ e ∈ s.srv.rooms, e.2 < s.srv.nextPtr ∧ (s.srv.heap e.2).members ≠ []) ∧
  (∀ hd ∈ s.handlers, hd.2.roomPtr < s.srv.nextPtr ∧
    ∀ e ∈ s.srv.rooms, e.2 = hd.2.roomPtr → e.1 = hd.2.roomId)

/-- A concrete offer message with a payload, used to instantiate theorems. -/
def exOffer : JVal :=
  JVal.jobj [("type", JVal.jstr "offer"), ("payload", JVal.jobj [("sdp", JVal.jstr "x")])]

/-- A concrete state exhibiting the stale-capture scenario: the room object
at pointer 0 (one member `A` on connection 1) was evicted from the registry,
which now maps `ROOM` to a fresh room object at pointer 1 (one member `C` on
connection 3). -/
def exStale : ServerState :=
  { rooms := [("ROOM", 1)],
    heap := fun q =>
      if q = 0 then { createdAt := 0, members := [("A", 1)], roles := [(1, "caller")] }
      else { createdAt := 650000, members := [("C", 3)], roles := [(3, "caller")] },
    nextPtr := 2,
    readyState := fun _ => 1 }

/-- The close context connection 1 captured when it was admitted to the old
room object of `exStale`. -/
def exStaleCtx : CloseCtx := { roomPtr := 0, roomId := "ROOM", memberId := "A" }

/-- A concrete one-connection trace, used to instantiate the trace invariant. -/
def exOps : List Op := [Op.connect 0 (some "ab") (some "caller") 5 "M1"]

section AssocLemmas

variable {α β : Type} [DecidableEq α]

theorem assocLookup_eq_none_iff (l : List (α × β)) (a : α) :
    assocLookup l a = none ↔ a ∉ l.map Prod.fst := by
  induction l with
  | nil => simp [assocLookup]
  | cons e rest ih =>
      obtain ⟨k, v⟩ := e
      by_cases hk : k = a
      · subst hk; simp [assocLookup]
      · simp [assocLookup, hk, ih, Ne.symm hk]

theorem assocLookup_mem {l : List (α × β)} {a : α} {b : β}
    (h : assocLookup l a = some b) : (a, b) ∈ l := by
  induction l with
  | nil => simp [assocLookup] at h
  | cons e rest ih =>
      obtain ⟨k, v⟩ := e
      simp only [assocLookup] at h
      by_cases hk : k = a
      · rw [if_pos hk] at h
        injection h with h
        subst hk; subst h
        exact List.mem_cons_self _ _
      · rw [if_neg hk] at h
        exact List.mem_cons_of_mem _ (ih h)

theorem assocLookup_delete_self (l : List (α × β)) (a : α) :
    assocLookup (assocDelete l a) a = none := by
  induction l with
  | nil => simp [assocDelete, assocLookup]
  | cons e rest ih =>
      obtain ⟨k, v⟩ := e
      by_cases hk : k = a
      · simpa [assocDelete, hk] using ih
      · simpa [assocDelete, hk, assocLookup] using ih

theorem assocDelete_sublist (l : List (α × β)) (a : α) :
    (assocDelete l a).Sublist l := by
  induction l with
  | nil => simp [assocDelete]
  | cons e rest ih =>
      obtain ⟨k, v⟩ := e
      by_cases hk : k = a
      · simp only [assocDelete, if_pos hk]
        exact ih.cons _
      · simp only [assocDelete, if_neg hk]
        exact ih.cons₂ _

theorem mem_assocDelete {l : List (α × β)} {a : α} {e : α × β}
    (h : e ∈ assocDelete l a) : e ∈ l ∧ e.1 ≠ a := by
  induction l with
  | nil => simp [assocDelete] at h
  | cons f rest ih =>
      obtain ⟨k, v⟩ := f
      by_cases hk : k = a
      · simp only [assocDelete, if_pos hk] at h
        exact ⟨List.mem_cons_of_mem _ (ih h).1, (ih h).2⟩
      · simp only [assocDelete, if_neg hk] at h
        rcases List.mem_cons.mp h with h | h
        · subst h; exact ⟨List.mem_cons_self _ _, hk⟩
        · exact ⟨List.mem_cons_of_mem _ (ih h).1, (ih h).2⟩

theorem assocSet_of_not_mem {l : List (α × β)} {a : α} (b : β)
    (h : a ∉ l.map Prod.fst) : assocSet l a b = l ++ [(a, b)] := by
  induction l with
  | nil => simp [assocSet]
  | cons e rest ih =>
      obtain ⟨k, v⟩ := e
      simp only [List.map_cons, List.mem_cons] at h
      push_neg at h
      simp [assocSet, Ne.symm h.1, ih h.2]

theorem mem_assocSet {l : List (α × β)} {a : α} {b : β} {e : α × β}
    (h : e ∈ assocSet l a b) : e ∈ l ∨ e = (a, b) := by
  induction l with
  | nil => simpa [assocSet] using h
  | cons f rest ih =>
      obtain ⟨k, v⟩ := f
      by_cases hk : k = a
      · simp only [assocSet, if_pos hk] at h
        rcases List.mem_cons.mp h with h | h
        · subst h; subst hk; right; rfl
        · left; exact List.mem_cons_of_mem _ h
      · simp only [assocSet, if_neg hk] at h
        rcases List.mem_cons.mp h with h | h
        · subst h; left; exact List.mem_cons_self _ _
        · rcases ih h with h' | h'
          · left; exact List.mem_cons_of_mem _ h'
          · right; exact h'

theorem assocSet_ne_nil (l : List (α × β)) (a : α) (b : β) :
    assocSet l a b ≠ [] := by
  cases l with
  | nil => simp [assocSet]
  | cons e rest =>
      obtain ⟨k, v⟩ := e
      by_cases hk : k = a <;> simp [assocSet, hk]

theorem nodup_snd_key_eq {l : List (α × β)} (hv : (l.map Prod.snd).Nodup)
    {a a' : α} {b : β} (h : (a, b) ∈ l) (h' : (a', b) ∈ l) : a = a' := by
  induction l with
  | nil => simp at h
  | cons e rest ih =>
      obtain ⟨k, v⟩ := e
      simp only [List.map_cons, List.nodup_cons] at hv
      rcases List.mem_cons.mp h with h | h <;> rcases List.mem_cons.mp h' with h' | h'
      · rw [Prod.mk.injEq] at h h'
        rw [h.1, h'.1]
      · exfalso
        apply hv.1
        rw [Prod.mk.injEq] at h
        rw [← h.2]
        exact List.mem_map_of_mem Prod.snd h'
      · exfalso
        apply hv.1
        rw [Prod.mk.injEq] at h'
        rw [← h'.2]
        exact List.mem_map_of_mem Prod.snd h
      · exact ih hv.2 h h'

theorem mem_map_fst_assocSet (l : List (α × β)) (a : α) (b : β) :
    a ∈ (assocSet l a b).map Prod.fst := by
  induction l with
  | nil => simp [assocSet]
  | cons e rest ih =>
      obtain ⟨k, v⟩ := e
      by_cases hk : k = a
      · simp [assocSet, hk]
      · simp only [assocSet, if_neg hk, List.map_cons, List.mem_cons]
        right; exact ih

end AssocLemmas

/-- If an object read of field `k` succeeds, the value is an object, hence
truthy (so `msg || {}` keeps it). -/
theorem truthy_of_getField_some {msg : JVal} {k : String} {v : JVal}
    (h : getField msg k = some v) : truthy msg = true := by
  cases msg <;> simp [getField, truthy] at h ⊢

/-- C10: every create-session request answers `ok: true` with
`expiresInSec` equal to the full 600-second TTL, whatever the request body,
the current registry contents, or the age of an existing session under the
same (upper-cased) identifier. -/
theorem postRooms_always_full_ttl (st : ServerState) (now : Nat)
    (bodyRoomId : Option String) (generated : String) :
    (postRooms st now bodyRoomId generated).2.ok = true ∧
    (postRooms st now bodyRoomId generated).2.expiresInSec = 600 :=
  ⟨rfl, rfl⟩

/-- C2: a connection attempt to a session that already holds two members is
answered by exactly one action — closing the new connection with code 1008
and reason `room full` — and the server state (registry, member maps, role
maps) is returned unchanged; in particular no `hello` is sent, nothing is
broadcast, and no close handler is registered. -/
theorem connection_room_full (st : ServerState) (now : Nat) (urlRoomId : String)
    (urlRole : Option String) (ws : Nat) (memberId : String) (p : Nat)
    (hne : jsToUpper urlRoomId ≠ "")
    (hlook : assocLookup st.rooms (jsToUpper urlRoomId) = some p)
    (hfull : 2 ≤ (st.heap p).members.length) :
    connection st now (some urlRoomId) urlRole ws memberId =
      (st, [Event.close ws 1008 "room full"], none) := by
  simp only [connection, Option.getD_some, if_neg hne, hlook, if_pos hfull]

/-- Witness for C2 at a concrete full room. -/
theorem connection_room_full_witness :
    connection exSt 200 (some "room") none 3 "C" =
      (exSt, [Event.close 3 1008 "room full"], none) :=
  connection_room_full exSt 200 "room" none 3 "C" 0 (by decide) (by rfl) (by decide)

/-- C9: a decodable message whose `type` field is present but falsy as a
JavaScript value (empty string, 0, false, null) produces no reply and no
forwarding at all — it is discarded exactly as when `type` is absent. -/
theorem falsy_type_silently_discarded (st : ServerState) (now : Nat)
    (roomId memberId : String) (ws : Nat) (msg ty : JVal)
    (hty : getField msg "type" = some ty)
    (hfalsy : truthy ty = false) :
    handleMessage st now roomId memberId ws (some msg) = [] := by
  simp only [handleMessage, truthy_of_getField_some hty, if_pos, hty, hfalsy,
    if_true]

/-- Witness for C9: `type: 0` is present yet produces no event. -/
theorem falsy_type_silently_discarded_witness :
    handleMessage exSt 7 "ROOM" "A" 1
      (some (JVal.jobj [("type", JVal.jnum 0)])) = [] :=
  falsy_type_silently_discarded exSt 7 "ROOM" "A" 1
    (JVal.jobj [("type", JVal.jnum 0)]) (JVal.jnum 0) rfl rfl

/-- C5 counterexample: the inbound message with body `type: ""` has a
`type` field that is present and is none of `offer`, `answer`, `ice`,
`ping`, yet the handler emits no event at all — in particular no
`unsupported_type` error reply — because `""` is falsy and hits the
silent-discard branch first. -/
theorem unsupported_type_cex :
    getField (JVal.jobj [("type", JVal.jstr "")]) "type" = some (JVal.jstr "") ∧
    isSignalType (JVal.jstr "") = false ∧
    isPing (JVal.jstr "") = false ∧
    handleMessage exSt 7 "ROOM" "A" 1
      (some (JVal.jobj [("type", JVal.jstr "")])) = [] :=
  ⟨rfl, rfl, rfl, rfl⟩

/-- C5 (amended): for every decodable inbound message whose `type` field is
present and truthy but is not one of `offer`, `answer`, `ice`, `ping`, the
handler's only action is an `unsupported_type` error reply to the sender;
nothing is forwarded to the peer. -/
theorem unsupported_type_reply (st : ServerState) (now : Nat)
    (roomId memberId : String) (ws : Nat) (msg ty : JVal)
    (hty : getField msg "type" = some ty)
    (htruthy : truthy ty = true)
    (hsig : isSignalType ty = false)
    (hping : isPing ty = false) :
    handleMessage st now roomId memberId ws (some msg) =
      [Event.send ws (OutMsg.error "unsupported_type")] := by
  simp [handleMessage, truthy_of_getField_some hty, hty, htruthy, hsig, hping]

/-- A whitelisted signal type is one of three nonempty strings, hence
truthy. -/
theorem truthy_of_isSignalType {ty : JVal} (h : isSignalType ty = true) :
    truthy ty = true := by
  cases ty <;> simp [isSignalType] at h ⊢
  rcases h with (h | h) | h <;> subst h <;> decide

/-- C1: in a session holding exactly the two members A (connection `wsA`)
and B (connection `wsB`), both open, a decodable message from A whose
`type` is one of `offer`, `answer`, `ice` produces exactly one action: the
envelope carrying that type, the session id, `from = A` and the payload
read unchanged from the message, sent to B's connection — and no message of
any kind is sent to A's own connection. -/
theorem signal_relayed_to_peer_only (st : ServerState) (now : Nat)
    (roomId a b : String) (wsA wsB p : Nat) (msg ty : JVal)
    (hlook : assocLookup st.rooms roomId = some p)
    (hmem : (st.heap p).members = [(a, wsA), (b, wsB)])
    (hab : a ≠ b) (hws : wsA ≠ wsB)
    (hopenA : st.readyState wsA = 1) (hopenB : st.readyState wsB = 1)
    (hty : getField msg "type" = some ty) (hsig : isSignalType ty = true) :
    handleMessage st now roomId a wsA (some msg) =
      [Event.send wsB (OutMsg.relay ty roomId a (getField msg "payload"))] ∧
    ∀ m : OutMsg, Event.send wsA m ∉
      handleMessage st now roomId a wsA (some msg) := by
  have hmsg := truthy_of_getField_some hty
  have htr := truthy_of_isSignalType hsig
  have heq : handleMessage st now roomId a wsA (some msg) =
      [Event.send wsB (OutMsg.relay ty roomId a (getField msg "payload"))] := by
    simp only [handleMessage, hmsg, if_true, hty, htr, hsig]
    simp [relayToPeer, hlook, hmem, hopenB, Ne.symm hab]
  refine ⟨heq, ?_⟩
  intro m hm
  rw [heq] at hm
  simp only [List.mem_singleton, Event.send.injEq] at hm
  exact hws hm.1

/-- Witness for C1: an offer with payload `sdp: "x"` sent by `A` in `exSt`
reaches exactly connection 2 (member `B`). -/
theorem signal_relayed_to_peer_only_witness :
    handleMessage exSt 7 "ROOM" "A" 1 (some exOffer) =
      [Event.send 2 (OutMsg.relay (JVal.jstr "offer") "ROOM" "A"
        (getField exOffer "payload"))] ∧
    ∀ m : OutMsg, Event.send 1 m ∉ handleMessage exSt 7 "ROOM" "A" 1 (some exOffer) :=
  signal_relayed_to_peer_only exSt 7 "ROOM" "A" "B" 1 2 0 exOffer
    (JVal.jstr "offer") rfl rfl (by decide) (by decide) rfl rfl rfl rfl

/-- Witness for amended C5 at `type: "chat"`. -/
theorem unsupported_type_reply_witness :
    handleMessage exSt 7 "ROOM" "A" 1
      (some (JVal.jobj [("type", JVal.jstr "chat")])) =
      [Event.send 1 (OutMsg.error "unsupported_type")] :=
  unsupported_type_reply exSt 7 "ROOM" "A" 1
    (JVal.jobj [("type", JVal.jstr "chat")]) (JVal.jstr "chat")
    rfl rfl (by decide) (by decide)

/-- C6: every successfully admitted connection is sent, as the first
emitted action, a `hello` carrying the resolved (upper-cased) session id,
the freshly assigned member id, the role, the session's `createdAt` (the
existing room's timestamp when the room already existed, the admission time
when the room was created implicitly), and the member-id list as it stands
after the insertion — a list that contains the new member itself.  The two
conjuncts cover admission into an existing non-full room and admission that
implicitly creates the room. -/
theorem hello_on_admission (st : ServerState) (now : Nat) (ws : Nat)
    (urlRoomId role memberId : String)
    (hne : jsToUpper urlRoomId ≠ "") (hrole : role ≠ "") :
    (∀ p, assocLookup st.rooms (jsToUpper urlRoomId) = some p →
        (st.heap p).members.length < 2 →
        (connection st now (some urlRoomId) (some role) ws memberId).2.1.head? =
          some (Event.send ws (OutMsg.hello (jsToUpper urlRoomId) memberId role
            (st.heap p).createdAt
            ((assocSet (st.heap p).members memberId ws).map Prod.fst))) ∧
        memberId ∈ (assocSet (st.heap p).members memberId ws).map Prod.fst) ∧
    (assocLookup st.rooms (jsToUpper urlRoomId) = none →
        (connection st now (some urlRoomId) (some role) ws memberId).2.1.head? =
          some (Event.send ws (OutMsg.hello (jsToUpper urlRoomId) memberId role
            now [memberId])) ∧
        memberId ∈ [memberId]) := by
  have hjr : jsRole (some role) = role := by simp [jsRole, hrole]
  constructor
  · intro p hlk hlt
    constructor
    · simp only [connection, Option.getD_some, if_neg hne, hjr, hlk,
        if_neg (Nat.not_le.mpr hlt), List.head?_cons]
    · exact mem_map_fst_assocSet _ _ _
  · intro hlk
    constructor
    · simp [connection, Option.getD_some, if_neg hne, hjr, hlk,
        heapSet, assocSet]
    · exact List.mem_singleton.mpr rfl

/-- Witness for C6: admitting `B2` into a one-member room yields a `hello`
listing both members, the new one included. -/
theorem hello_on_admission_witness :
    (connection exStale 900000 (some "room") (some "callee") 4 "B2").2.1.head? =
      some (Event.send 4 (OutMsg.hello "ROOM" "B2" "callee"
        (exStale.heap 1).createdAt
        ((assocSet (exStale.heap 1).members "B2" 4).map Prod.fst))) ∧
    "B2" ∈ (assocSet (exStale.heap 1).members "B2" 4).map Prod.fst :=
  (hello_on_admission exStale 900000 4 "room" "callee" "B2"
    (by decide) (by decide)).1 1 rfl (by decide)

/-- C7: resolving a session identifier that is already registered — by a
create-session request for the same identifier or by a further admission —
returns the existing session and leaves its `createdAt` unchanged: the
create-session request leaves the whole state untouched, and admission
keeps the registry entry pointing at the same room object whose `createdAt`
still equals the original one. -/
theorem createdAt_set_once (st : ServerState) (now now2 : Nat)
    (rid generated : String) (urlRole : Option String) (ws : Nat)
    (memberId : String) (p : Nat)
    (hlook : assocLookup st.rooms rid = some p)
    (hup : jsToUpper rid = rid) (hne : rid ≠ "") :
    (postRooms st now (some rid) generated).1 = st ∧
    assocLookup (connection st now2 (some rid) urlRole ws memberId).1.rooms
      rid = some p ∧
    ((connection st now2 (some rid) urlRole ws memberId).1.heap p).createdAt =
      (st.heap p).createdAt := by
  refine ⟨?_, ?_⟩
  · simp only [postRooms, if_neg hne, hup, hlook]
  · have hconn :
        (connection st now2 (some rid) urlRole ws memberId).1.rooms = st.rooms ∧
        ((connection st now2 (some rid) urlRole ws memberId).1.heap p).createdAt =
          (st.heap p).createdAt := by
      by_cases hfull : 2 ≤ (st.heap p).members.length
      · simp only [connection, Option.getD_some, hup, if_neg hne, hlook,
          if_pos hfull]
        simp
      · simp only [connection, Option.getD_some, hup, if_neg hne, hlook,
          if_neg hfull, heapSet]
        simp
    exact ⟨hconn.1 ▸ hlook, hconn.2⟩

/-- Witness for C7 on the registered room of `exSt`. -/
theorem createdAt_set_once_witness :
    (postRooms exSt 500 (some "ROOM") "G1").1 = exSt ∧
    assocLookup (connection exSt 600 (some "ROOM") none 9 "Z").1.rooms
      "ROOM" = some 0 ∧
    ((connection exSt 600 (some "ROOM") none 9 "Z").1.heap 0).createdAt =
      (exSt.heap 0).createdAt :=
  createdAt_set_once exSt 500 600 "ROOM" "G1" none 9 "Z" 0 rfl (by decide) (by decide)

/-- The sweeper only ever removes registry entries. -/
theorem sweepList_sublist (heap : Nat → Room) (now : Nat)
    (l : List (String × Nat)) : (sweepList heap now l).1.Sublist l := by
  induction l with
  | nil => simp [sweepList]
  | cons e rest ih =>
      obtain ⟨rid, p⟩ := e
      simp only [sweepList]
      by_cases hexp : ROOM_TTL_MS < now - (heap p).createdAt
      · rw [if_pos hexp]; exact ih.cons _
      · rw [if_neg hexp]; exact ih.cons₂ _

/-- Core of C4, by induction over the registry: an expired entry is removed
by the sweep pass and every member of its room receives a forced close. -/
theorem sweepList_expired (heap : Nat → Room) (now : Nat) :
    ∀ (l : List (String × Nat)) (rid : String) (p : Nat),
    (l.map Prod.fst).Nodup → assocLookup l rid = some p →
    ROOM_TTL_MS < now - (heap p).createdAt →
    assocLookup (sweepList heap now l).1 rid = none ∧
    ∀ m ∈ (heap p).members,
      Event.close m.2 1000 "expired" ∈ (sweepList heap now l).2 := by
  intro l
  induction l with
  | nil => intro rid p _ hlk _; simp [assocLookup] at hlk
  | cons e rest ih =>
      intro rid p hnd hlk hexp
      obtain ⟨k, q⟩ := e
      simp only [List.map_cons, List.nodup_cons] at hnd
      simp only [assocLookup] at hlk
      by_cases hk : k = rid
      · rw [if_pos hk] at hlk
        injection hlk with hlk
        subst hk; subst hlk
        simp only [sweepList, if_pos hexp]
        constructor
        · rw [assocLookup_eq_none_iff]
          intro hmem
          exact hnd.1 (((sweepList_sublist heap now rest).map Prod.fst).subset hmem)
        · intro m hm
          exact List.mem_append_left _ (List.mem_map_of_mem _ hm)
      · rw [if_neg hk] at hlk
        have hrec := ih rid p hnd.2 hlk hexp
        simp only [sweepList]
        by_cases hexp2 : ROOM_TTL_MS < now - (heap q).createdAt
        · rw [if_pos hexp2]
          exact ⟨hrec.1, fun m hm => List.mem_append_right _ (hrec.2 m hm)⟩
        · rw [if_neg hexp2]
          refine ⟨?_, hrec.2⟩
          simp [assocLookup, hk, hrec.1]

/-- C4: a registered session whose age `now - createdAt` exceeds the
10-minute TTL is handled by the sweep tick itself: its entry is gone from
the registry when the tick returns (no close-handler involvement), and
every member's connection receives a close with code 1000 and reason
`expired`. -/
theorem sweeper_expires_session (st : ServerState) (now : Nat) (rid : String)
    (p : Nat)
    (hnd : (st.rooms.map Prod.fst).Nodup)
    (hlk : assocLookup st.rooms rid = some p)
    (hexp : ROOM_TTL_MS < now - (st.heap p).createdAt) :
    assocLookup (sweep st now).1.rooms rid = none ∧
    ∀ m ∈ (st.heap p).members,
      Event.close m.2 1000 "expired" ∈ (sweep st now).2 := by
  have h := sweepList_expired st.heap now st.rooms rid p hnd hlk hexp
  simpa [sweep] using h

/-- Witness for C4: sweeping `exSt` at time 700000 evicts `ROOM` (age
699900 ms) and closes both members' connections. -/
theorem sweeper_expires_session_witness :
    assocLookup (sweep exSt 700000).1.rooms "ROOM" = none ∧
    ∀ m ∈ (exSt.heap 0).members,
      Event.close m.2 1000 "expired" ∈ (sweep exSt 700000).2 :=
  sweeper_expires_session exSt 700000 "ROOM" 0 (by decide) rfl (by decide)

/-- C8: the close handler acts on the room object captured at admission.
If the registry now maps the captured room id to a *different* (new) room
object, a late close still broadcasts `member.left` to every open member of
the new room, and — because the captured old room object becomes empty —
deletes the new room's registry entry. -/
theorem stale_close_handler (st : ServerState) (ctx : CloseCtx) (ws : Nat)
    (p2 : Nat)
    (hlk : assocLookup st.rooms ctx.roomId = some p2)
    (hptr : ctx.roomPtr ≠ p2)
    (hold : (st.heap ctx.roomPtr).members = [(ctx.memberId, ws)]) :
    (∀ m ∈ (st.heap p2).members, st.readyState m.2 = 1 →
      Event.send m.2 (OutMsg.memberLeft ctx.roomId ctx.memberId) ∈
        (handleClose st ctx ws).2) ∧
    assocLookup (handleClose st ctx ws).1.rooms ctx.roomId = none := by
  have hempty : assocDelete (st.heap ctx.roomPtr).members ctx.memberId = [] := by
    rw [hold]; simp [assocDelete]
  constructor
  · intro m hm hopen
    simp only [handleClose, hempty, List.length_nil, if_pos, broadcast, hlk,
      heapSet, if_neg (Ne.symm hptr)]
    exact List.mem_map_of_mem _ (List.mem_filter.mpr ⟨hm, by simp [hopen]⟩)
  · simp only [handleClose, hempty, List.length_nil, if_pos]
    exact assocLookup_delete_self _ _

/-- Witness for C8 on `exStale`: connection 1's late close broadcasts
`member.left` to connection 3 (the new room's member) and evicts the new
room from the registry. -/
theorem stale_close_handler_witness :
    (∀ m ∈ (exStale.heap 1).members, exStale.readyState m.2 = 1 →
      Event.send m.2 (OutMsg.memberLeft "ROOM" "A") ∈
        (handleClose exStale exStaleCtx 1).2) ∧
    assocLookup (handleClose exStale exStaleCtx 1).1.rooms "ROOM" = none :=
  stale_close_handler exStale exStaleCtx 1 1 rfl (by decide) rfl

/-- One admission event preserves the trace invariant. -/
theorem stepOp_connect_inv (s : SysState) (now : Nat) (urid urole : Option String)
    (ws : Nat) (mid : String) (h : Inv s) :
    Inv (stepOp s (Op.connect now urid urole ws mid)) := by
  obtain ⟨hk, hv, hre, hha⟩ := h
  by_cases hne : jsToUpper (urid.getD "") = ""
  · have hc : connection s.srv now urid urole ws mid =
        (s.srv, [Event.close ws 1008 "roomId required"], none) := by
      simp [connection, hne]
    simp only [stepOp, hc]
    exact ⟨hk, hv, hre, hha⟩
  · cases hlk : assocLookup s.srv.rooms (jsToUpper (urid.getD "")) with
    | some p =>
        by_cases hfull : 2 ≤ (s.srv.heap p).members.length
        · have hc : connection s.srv now urid urole ws mid =
              (s.srv, [Event.close ws 1008 "room full"], none) := by
            simp [connection, hne, hlk, hfull]
          simp only [stepOp, hc]
          exact ⟨hk, hv, hre, hha⟩
        · have h1 : (connection s.srv now urid urole ws mid).1 =
              { s.srv with heap := heapSet s.srv.heap p ({ createdAt := (s.srv.heap p).createdAt, members := assocSet (s.srv.heap p).members mid ws, roles := assocSet (s.srv.heap p).roles ws (jsRole urole) }) } := by
            simp [connection, hne, hlk, hfull]
          have h2 : (connection s.srv now urid urole ws mid).2.2 =
              some { roomPtr := p, roomId := jsToUpper (urid.getD ""),
                     memberId := mid } := by
            simp [connection, hne, hlk, hfull]
          simp only [stepOp, h2, h1]
          have hmemp : (jsToUpper (urid.getD ""), p) ∈ s.srv.rooms :=
            assocLookup_mem hlk
          refine ⟨hk, hv, ?_, ?_⟩
          · intro e he
            refine ⟨(hre e he).1, ?_⟩
            by_cases hep : e.2 = p
            · simp only [heapSet, hep, if_pos rfl]
              exact assocSet_ne_nil _ _ _
            · simp only [heapSet, if_neg hep]
              exact (hre e he).2
          · intro hd hhd
            rcases mem_assocSet hhd with hold | hnew
            · exact hha hd hold
            · subst hnew
              refine ⟨(hre _ hmemp).1, ?_⟩
              intro e he hep
              have : (e.1, p) ∈ s.srv.rooms := by
                have he' : e = (e.1, e.2) := rfl
                rw [he', hep] at he
                exact he
              exact nodup_snd_key_eq hv this hmemp
    | none =>
        have hnm : jsToUpper (urid.getD "") ∉ s.srv.rooms.map Prod.fst :=
          (assocLookup_eq_none_iff _ _).mp hlk
        have h1 : (connection s.srv now urid urole ws mid).1 =
            { rooms := assocSet s.srv.rooms (jsToUpper (urid.getD ""))
                s.srv.nextPtr,
              heap := heapSet
                (heapSet s.srv.heap s.srv.nextPtr
                  ({ createdAt := now, members := [], roles := [] }))
                s.srv.nextPtr
                ({ createdAt := now, members := [(mid, ws)],
                   roles := [(ws, jsRole urole)] }),
              nextPtr := s.srv.nextPtr + 1,
              readyState := s.srv.readyState } := by
          simp [connection, hne, hlk, heapSet, assocSet]
        have h2 : (connection s.srv now urid urole ws mid).2.2 =
            some { roomPtr := s.srv.nextPtr,
                   roomId := jsToUpper (urid.getD ""), memberId := mid } := by
          simp [connection, hne, hlk, heapSet]
        simp only [stepOp, h2, h1]
        rw [assocSet_of_not_mem _ hnm]
        refine ⟨?_, ?_, ?_, ?_⟩
        · rw [List.map_append, List.nodup_append]
          refine ⟨hk, List.nodup_singleton _, ?_⟩
          intro a ha hb
          rw [List.map_singleton, List.mem_singleton] at hb
          subst hb
          exact hnm ha
        · rw [List.map_append, List.nodup_append]
          refine ⟨hv, List.nodup_singleton _, ?_⟩
          intro a ha hb
          rw [List.map_singleton, List.mem_singleton] at hb
          subst hb
          rcases List.mem_map.mp ha with ⟨e, he, hesnd⟩
          exact absurd hesnd (Nat.ne_of_lt (hre e he).1)
        · intro e he
          rcases List.mem_append.mp he with hold | hnew
          · have hlt := (hre e hold).1
            refine ⟨Nat.lt_succ_of_lt hlt, ?_⟩
            simp only [heapSet, if_neg (Nat.ne_of_lt hlt)]
            exact (hre e hold).2
          · rw [List.mem_singleton] at hnew
            subst hnew
            refine ⟨Nat.lt_succ_self _, ?_⟩
            simp [heapSet]
        · intro hd hhd
          rcases mem_assocSet hhd with hold | hnew
          · have hh := hha hd hold
            refine ⟨Nat.lt_succ_of_lt hh.1, ?_⟩
            intro e he hep
            rcases List.mem_append.mp he with he' | he'
            · exact hh.2 e he' hep
            · rw [List.mem_singleton] at he'
              subst he'
              exact absurd hep.symm (Nat.ne_of_lt hh.1)
          · subst hnew
            refine ⟨Nat.lt_succ_self _, ?_⟩
            intro e he hep
            rcases List.mem_append.mp he with he' | he'
            · exact absurd hep (Nat.ne_of_lt (hre e he').1)
            · rw [List.mem_singleton] at he'
              subst he'
              rfl

/-- One disconnection event preserves the trace invariant. -/
theorem stepOp_disconnect_inv (s : SysState) (ws : Nat) (h : Inv s) :
    Inv (stepOp s (Op.disconnect ws)) := by
  obtain ⟨hk, hv, hre, hha⟩ := h
  simp only [stepOp]
  cases hlk : assocLookup s.handlers ws with
  | none => exact ⟨hk, hv, hre, hha⟩
  | some ctx =>
      have hctx := hha _ (assocLookup_mem hlk)
      simp only [handleClose]
      by_cases hemp :
          (assocDelete (s.srv.heap ctx.roomPtr).members ctx.memberId).length = 0
      · rw [if_pos hemp]
        refine ⟨?_, ?_, ?_, ?_⟩
        · exact ((assocDelete_sublist _ _).map Prod.fst).nodup hk
        · exact ((assocDelete_sublist _ _).map Prod.snd).nodup hv
        · intro e he
          have he' := mem_assocDelete he
          refine ⟨(hre e he'.1).1, ?_⟩
          have hep : e.2 ≠ ctx.roomPtr := by
            intro hep
            exact he'.2 (hctx.2 e he'.1 hep)
          simp only [heapSet, if_neg hep]
          exact (hre e he'.1).2
        · intro hd hhd
          have hd' := (mem_assocDelete hhd).1
          refine ⟨(hha hd hd').1, ?_⟩
          intro e he hep
          exact (hha hd hd').2 e (mem_assocDelete he).1 hep
      · rw [if_neg hemp]
        refine ⟨hk, hv, ?_, ?_⟩
        · intro e he
          refine ⟨(hre e he).1, ?_⟩
          by_cases hep : e.2 = ctx.roomPtr
          · simp only [heapSet, hep, if_pos rfl]
            intro hnil
            exact hemp (by rw [← List.length_eq_zero] at hnil; exact hnil)
          · simp only [heapSet, if_neg hep]
            exact (hre e he).2
        · intro hd hhd
          have hd' := (mem_assocDelete hhd).1
          exact ⟨(hha hd hd').1, (hha hd hd').2⟩

/-- Every admission/disconnection trace preserves the invariant. -/
theorem runOps_inv (ops : List Op) :
    ∀ s : SysState, Inv s → Inv (runOps s ops) := by
  induction ops with
  | nil => intro s h; exact h
  | cons op rest ih =>
      intro s h
      cases op with
      | connect now urid urole ws mid =>
          exact ih _ (stepOp_connect_inv s now urid urole ws mid h)
      | disconnect ws =>
          exact ih _ (stepOp_disconnect_inv s ws h)

/-- The initial state satisfies the invariant. -/
theorem initState_inv : Inv initState := by
  refine ⟨List.nodup_nil, List.nodup_nil, ?_, ?_⟩ <;> intro e he <;>
    simp [initState] at he

/-- C3: along every sequence of admissions and disconnections starting from
the empty registry, member counts are natural numbers (never negative by
construction) and every session still present in the registry has a
strictly positive member count — equivalently, as soon as a departure
empties a session it is deleted, so the registry never retains a
zero-member session. -/
theorem registry_never_holds_empty_session (ops : List Op) (rid : String)
    (p : Nat)
    (hlk : assocLookup (runOps initState ops).srv.rooms rid = some p) :
    0 < ((runOps initState ops).srv.heap p).members.length := by
  have hinv := runOps_inv ops initState initState_inv
  have hmem := assocLookup_mem hlk
  exact List.length_pos.mpr (hinv.2.2.1 _ hmem).2

/-- Witness for C3 on the one-admission trace `exOps`. -/
theorem registry_never_holds_empty_session_witness :
    0 < ((runOps initState exOps).srv.heap 0).members.length :=
  registry_never_holds_empty_session exOps "AB" 0 (by rfl)

end WebrtcSignal
